import Mathlib

/-!
Verification of the supply-chain demand/forecast/inventory core.

Shallow embedding of the repository code:
  * `CoreDemand` embeds `core_demand.py` (code normalizer, month labels,
    wide-to-long transformer, forecast engine, ABC classifier).
  * `CoreInventory` embeds `core_inventory.py` (schema check, join,
    decision rules, order quantity).

Python floats are modelled by `ℚ` (exact arithmetic), Python strings by
`String`, missing values (`None` / `NaN`) by `Option`.  Python `round`
and `Decimal.to_integral_value` round half to even, which is modelled
exactly.  Python string helpers (`strip`, `lower`, substring tests) are
modelled by executable char-list functions restricted to ASCII.
-/

/-- Models Python `str.strip()`: removes leading and trailing whitespace. -/
def pyStrip (s : String) : String :=
  ⟨((s.data.dropWhile Char.isWhitespace).reverse.dropWhile Char.isWhitespace).reverse⟩

/-- ASCII lower-casing of one character, as Python `str.lower` does on ASCII. -/
def asciiLower (c : Char) : Char :=
  if 'A' ≤ c ∧ c ≤ 'Z' then Char.ofNat (c.toNat + 32) else c

/-- Models Python `str.lower()` (ASCII range). -/
def strLower (s : String) : String :=
  ⟨s.data.map asciiLower⟩

/-- Models the Python substring test `needle in hay`. -/
def strContains (hay needle : String) : Bool :=
  hay.data.tails.any (fun t => needle.data.isPrefixOf t)

/-- Models Python `s.replace(c, "")`: removes every occurrence of the character. -/
def removeAll (s : String) (c : Char) : String :=
  ⟨s.data.filter (fun x => x ≠ c)⟩

/-- Models Python `str.isdigit()` on ASCII: nonempty and all digits. -/
def isdigitStr (s : String) : Bool :=
  s.data.length != 0 && s.data.all Char.isDigit

/-- Models `str(x)` applied to a cell that is either a missing value
(`None`/`NaN`, whose string form is `"nan"` under `astype(str)`) or text. -/
def pyStr : Option String → String
  | none => "nan"
  | some s => s

/-- Value of a digit list, used by the decimal-string parser. -/
def digitsToNat (ds : List Char) : ℕ :=
  ds.foldl (fun a c => 10 * a + (c.toNat - 48)) 0

/-- Left-pads the decimal representation of `n` with zeros to width `w`,
modelling the Python format `f"{n:0wd}"`. -/
def padNat (w : ℕ) (n : ℕ) : String :=
  let r := Nat.repr n
  ⟨List.replicate (w - r.length) '0'⟩ ++ r

/-- Floor of a rational number, computed by floor division of the
numerator by the denominator. -/
def ratFloor (q : ℚ) : ℤ :=
  q.num.fdiv (q.den : ℤ)

/-- Models Python `round(x)` on an exact value: round half to even. -/
def pyRound (q : ℚ) : ℤ :=
  if q - (ratFloor q : ℚ) < 1/2 then ratFloor q
  else if 1/2 < q - (ratFloor q : ℚ) then ratFloor q + 1
  else if ratFloor q % 2 = 0 then ratFloor q else ratFloor q + 1

/-- A finite value of the Python `decimal.Decimal` class: sign, integer
coefficient and exponent, value `(-1)^neg * coeff * 10^exp`. -/
structure PyDecimal where
  neg : Bool
  coeff : ℕ
  exp : ℤ
deriving DecidableEq

/-- Optional leading sign of a numeric literal; returns (isNegative, rest). -/
def parseSign : List Char → Bool × List Char
  | '+' :: rest => (false, rest)
  | '-' :: rest => (true, rest)
  | cs => (false, cs)

/-- Mantissa of a decimal literal: `digits [. digits]` or `. digits`.
Returns coefficient, fractional exponent offset and remaining input. -/
def parseMantissa (cs : List Char) : Option (ℕ × ℤ × List Char) :=
  let ip := cs.takeWhile Char.isDigit
  let rest1 := cs.drop ip.length
  match rest1 with
  | '.' :: rest2 =>
    let fp := rest2.takeWhile Char.isDigit
    let rest3 := rest2.drop fp.length
    if ip.length = 0 ∧ fp.length = 0 then none
    else some (digitsToNat (ip ++ fp), -(fp.length : ℤ), rest3)
  | _ => if ip.length = 0 then none else some (digitsToNat ip, 0, rest1)

/-- Exponent suffix of a decimal literal: empty or `(e|E)[sign]digits`. -/
def parseExponent (cs : List Char) : Option ℤ :=
  match cs with
  | [] => some 0
  | c :: rest =>
    if c = 'e' ∨ c = 'E' then
      let sr := parseSign rest
      if sr.2.length ≠ 0 ∧ sr.2.all Char.isDigit then
        some (if sr.1 then -(digitsToNat sr.2 : ℤ) else (digitsToNat sr.2 : ℤ))
      else none
    else none

/-- Models `decimal.Decimal(s)` on finite numeric strings:
`[sign] (digits [. digits] | . digits) [(e|E) [sign] digits]`.
The special literals (`NaN`, `Infinity`) and underscore grouping accepted
by the Python class are outside the modelled grammar and yield `none`,
as does any other non-numeric string (Python raises `InvalidOperation`). -/
def parseDecimalString (s : String) : Option PyDecimal :=
  let sc := parseSign s.data
  match parseMantissa sc.2 with
  | none => none
  | some (co, fexp, rest) =>
    match parseExponent rest with
    | none => none
    | some e => some ⟨sc.1, co, e + fexp⟩

/-- Models `Decimal.to_integral_value()` (default rounding half to even):
unchanged when the exponent is nonnegative, otherwise rounded to exponent 0. -/
def toIntegralValue (d : PyDecimal) : PyDecimal :=
  if 0 ≤ d.exp then d
  else
    let k := (-d.exp).toNat
    let p := 10 ^ k
    let q := d.coeff / p
    let r := d.coeff % p
    let q2 := if 2 * r < p then q else if p < 2 * r then q + 1 else if q % 2 = 0 then q else q + 1
    ⟨d.neg, q2, 0⟩

/-- Signed coefficient of a decimal value. -/
def PyDecimal.sgnCoeff (d : PyDecimal) : ℤ :=
  if d.neg then -(d.coeff : ℤ) else (d.coeff : ℤ)

/-- Models numeric equality `a == b` of two Python decimals. -/
def pyDecEq (a b : PyDecimal) : Bool :=
  let m := min a.exp b.exp
  a.sgnCoeff * 10 ^ (a.exp - m).toNat = b.sgnCoeff * 10 ^ (b.exp - m).toNat

/-- Models `str(d)` for a Python decimal, following the to-scientific-string
algorithm: positional notation when `exp ≤ 0` and the adjusted exponent is
at least `-6`, otherwise scientific notation `d[.ddd]E±n`. -/
def decStr (d : PyDecimal) : String :=
  let ds := Nat.repr d.coeff
  let sign := if d.neg then "-" else ""
  let adj : ℤ := d.exp + ds.length - 1
  if d.exp ≤ 0 ∧ -6 ≤ adj then
    if d.exp = 0 then sign ++ ds
    else
      let k := (-d.exp).toNat
      if k < ds.length then
        sign ++ ⟨ds.data.take (ds.length - k)⟩ ++ "." ++ ⟨ds.data.drop (ds.length - k)⟩
      else
        sign ++ "0." ++ ⟨List.replicate (k - ds.length) '0'⟩ ++ ds
  else
    let mantissa : String :=
      if ds.length = 1 then ds else ⟨ds.data.take 1⟩ ++ "." ++ ⟨ds.data.drop 1⟩
    sign ++ mantissa ++ "E" ++ (if 0 ≤ adj then "+" else "") ++ toString adj

namespace CoreDemand

/-- Embeds `core_demand.normalize_item_code` (core_demand.py lines 12-36).
The input `none` models Python `None` or a float `NaN` (lines 17-18);
`some v` models `str(x)` of any other input. -/
def normalize_item_code (x : Option String) : String :=
  match x with
  | none => ""
  | some v =>
    let s := pyStrip v
    if s = "" ∨ strLower s = "nan" then ""
    else
      let s_clean := pyStrip (removeAll s ',')
      match parseDecimalString s_clean with
      | some d => if pyDecEq d (toIntegralValue d) then decStr (toIntegralValue d) else s_clean
      | none => s_clean

/-- Embeds `core_demand.standardize_month_label` (lines 39-60): accepts
year-month or month-year with a dash or slash separator and returns
`YYYY-MM`; anything else is returned unchanged.  The two regular
expressions of the source are modelled by taking
the maximal leading digit run, one separator, and a trailing digit run
spanning the rest of the string, with the same length constraints. -/
def standardize_month_label (label : String) : String :=
  let s := pyStrip label
  let cs := s.data
  let a := cs.takeWhile Char.isDigit
  let rest := cs.drop a.length
  match rest with
  | [] => s
  | c :: b =>
    if (c = '-' ∨ c = '/') ∧ a.length ≠ 0 ∧ b.length ≠ 0 ∧ b.all Char.isDigit then
      if a.length = 4 ∧ b.length ≤ 2 then
        padNat 4 (digitsToNat a) ++ "-" ++ padNat 2 (digitsToNat b)
      else if b.length = 4 ∧ a.length ≤ 2 then
        padNat 4 (digitsToNat b) ++ "-" ++ padNat 2 (digitsToNat a)
      else s
    else s

/-- One row of a monthly wide sheet: item name cell, item code cell, and
one demand cell per non-id column.  A demand cell is `some q` when the
cell holds a numeric value and `none` when it is blank or non-numeric
(`pd.to_numeric(..., errors="coerce")` turns those into `NaN`). -/
structure SheetRow where
  name : Option String
  code : Option String
  vals : List (Option ℚ)
deriving DecidableEq

/-- A monthly wide sheet: the headers of all columns other than the
`iteam name` / `item code` id columns, and the data rows. -/
structure Sheet where
  headers : List String
  rows : List SheetRow
deriving DecidableEq

/-- One output row of the wide-to-long transformer. -/
structure LongRow where
  month : String
  branch : String
  item_code : String
  iteam_name : String
  demand : ℚ
deriving DecidableEq

/-- One melted (item, branch) record before the filtering steps. -/
structure MeltRow where
  branch : String
  name : Option String
  code : Option String
  demand : Option ℚ
deriving DecidableEq

/-- Sample statistics for the column-swap heuristic (lines 93-97):
number of entries in the first ten non-null values that look numeric
after stripping and removing dots, and the sample size. -/
def looksNumericCount (col : List (Option String)) : ℕ × ℕ :=
  let sample := (col.filterMap id).take 10
  (sample.countP (fun s => isdigitStr (removeAll (pyStrip s) '.')), sample.length)

/-- Embeds the column-swap heuristic (lines 92-103): when the name column
looks mostly numeric (ratio > 0.8) and the code column does not
(ratio < 0.5), the two column contents are swapped.  The float ratio
comparisons `count/len > 0.8` and `count/len < 0.5` are written in exact
cross-multiplied form; an empty sample has ratio 0 as in the source. -/
def swap_if_mixed (rows : List SheetRow) : List SheetRow :=
  let nc := looksNumericCount (rows.map (·.name))
  let cc := looksNumericCount (rows.map (·.code))
  if 4 * nc.2 < 5 * nc.1 ∧ (cc.2 = 0 ∨ 2 * cc.1 < cc.2) then
    rows.map (fun r => { r with name := r.code, code := r.name })
  else rows

/-- Embeds `_is_total_col` (lines 108-109). -/
def is_total_col (c : String) : Bool :=
  strContains (strLower (pyStrip c)) "total"

/-- A header is kept as a branch column when it is not one of the two id
columns and does not contain "total" (lines 111-115). -/
def isBranchHeader (c : String) : Bool :=
  c != "iteam name" && c != "item code" && !is_total_col c

/-- Embeds `df.melt` (lines 118-123) over the branch columns: one record
per (branch column, row), stacked column by column. -/
def meltSheet (hs : List String) (rows : List SheetRow) : List MeltRow :=
  ((List.range hs.length).filter (fun j => isBranchHeader (hs.getD j ""))).flatMap
    (fun j => rows.map (fun r => ⟨hs.getD j "", r.name, r.code, r.vals.getD j none⟩))

/-- Step of line 128: overwrite the code cell with its normalized form. -/
def step_norm (r : MeltRow) : MeltRow :=
  ⟨r.branch, r.name, some (normalize_item_code r.code), r.demand⟩

/-- Filter of line 132: keep rows whose normalized code strips nonempty. -/
def keep_code (r : MeltRow) : Bool :=
  pyStrip (pyStr r.code) != ""

/-- Step of line 135: overwrite the name cell with its trimmed string form. -/
def step_name (r : MeltRow) : MeltRow :=
  ⟨r.branch, some (pyStrip (pyStr r.name)), r.code, r.demand⟩

/-- Filter of lines 136-137: drop rows whose lower-cased name contains
"total". -/
def keep_name (r : MeltRow) : Bool :=
  !strContains (strLower (pyStr r.name)) "total"

/-- Coercion filter of lines 143-144: keep only rows with numeric demand. -/
def step_demand (r : MeltRow) : Option (MeltRow × ℚ) :=
  r.demand.map (fun d => (r, d))

/-- Final renaming and month stamping of lines 146-150. -/
def finalize (month_std : String) (rd : MeltRow × ℚ) : LongRow :=
  ⟨month_std, rd.1.branch, pyStr rd.1.code, pyStr rd.1.name, rd.2⟩

/-- Embeds `build_long_from_wide_month` (lines 74-152) with the default
id columns.  Headers are stripped (line 85); the re-strip of the branch
values at line 125 is a no-op because branch values are stripped headers.
Demand coercion (line 143) is modelled by the `Option ℚ` demand cells. -/
def build_long_from_wide_month (df : Sheet) (month_label : String) : List LongRow :=
  let hs := df.headers.map pyStrip
  let month_std := standardize_month_label month_label
  let rows := swap_if_mixed df.rows
  (((((meltSheet hs rows).map step_norm).filter keep_code).map step_name).filter
    keep_name).filterMap step_demand |>.map (finalize month_std)

/-- The contribution of the single cell at branch-column index `j` of row
`r` to the long table: at most one output row, none when the demand cell
is blank or the row is filtered out. -/
def cellRow (month_std : String) (hs : List String) (j : ℕ) (r : SheetRow) : Option LongRow :=
  let code := normalize_item_code r.code
  let name := pyStrip (pyStr r.name)
  match r.vals.getD j none with
  | none => none
  | some d =>
    if pyStrip code ≠ "" ∧ strContains (strLower name) "total" = false then
      some ⟨month_std, hs.getD j "", code, name, d⟩
    else none

/-- Average of the strictly positive values of the series, 0 when there is
none (lines 208-209). -/
def demand_avg_nonzero (demand : List ℚ) : ℚ :=
  let positive := demand.filter (fun x => decide (0 < x))
  if positive.length = 0 then 0 else positive.sum / positive.length

/-- Number of exact zeros in the series (line 215). -/
def zeros_count (demand : List ℚ) : ℕ :=
  (demand.filter (fun x => decide (x = 0))).length

/-- Share of zeros in the series, 1 for an empty series (line 216). -/
def zero_ratio (demand : List ℚ) : ℚ :=
  if demand.length = 0 then 1 else (zeros_count demand : ℚ) / (demand.length : ℚ)

/-- Embeds the forecast branch of `_compute_demand_stats_and_forecast`
(lines 201-246): the demand series is the month-ordered list of values,
already numeric (line 202 coerces and fills missing values before this
point).  Returns the pair (forecast_next_month, forecast_method). -/
def compute_forecast (demand : List ℚ) : ℚ × String :=
  let n := demand.length
  let demand_total := demand.sum
  if demand_total = 0 then (0, "zero_demand")
  else if 1/2 ≤ zero_ratio demand ∧ 0 < demand_avg_nonzero demand then
    (demand_avg_nonzero demand, "avg_nonzero_intermittent")
  else if 4 ≤ n then
    let recent := demand.drop (n - min 9 n)
    let m := recent.length
    if m ≤ 3 then (recent.sum / (m : ℚ), "mean_last_" ++ toString m)
    else
      let num_last_3 := min 3 m
      let num_old := m - num_last_3
      let weights := List.replicate num_old (1 : ℚ) ++ List.replicate num_last_3 (2 : ℚ)
      ((List.zipWith (· * ·) recent weights).sum / weights.sum,
        "weighted_last_" ++ toString m ++ "_old1_new2")
  else ((if n = 0 then 0 else demand.sum / (n : ℚ)), "mean_all_few_months")

/-- Embeds line 248: `max(int(round(forecast_next_month)), 0)`. -/
def forecast_next_month_rounded (demand : List ℚ) : ℤ :=
  max (pyRound (compute_forecast demand).1) 0

/-- One company-level summary row entering the ABC block of
`build_product_level_forecast`: the item code and its total demand. -/
structure ProductRow where
  item_code : String
  demand_total : ℚ
deriving DecidableEq

/-- A summary row extended with the ABC fields added at lines 374-393. -/
structure AbcRow where
  item_code : String
  demand_total : ℚ
  demand_share : ℚ
  cum_demand_share : ℚ
  abc_class : String
deriving DecidableEq

/-- Embeds `_abc` (lines 381-387) with the thresholds 0.8 and 0.95. -/
def abcLabel (x : ℚ) : String :=
  if x ≤ 4/5 then "A" else if x ≤ 19/20 then "B" else "C"

/-- Running pass over the descending-sorted rows: demand share, cumulative
share (`cumsum`, lines 378-379) and class per row. -/
def abcScan (total acc : ℚ) : List ProductRow → List AbcRow
  | [] => []
  | r :: rs =>
    let share := r.demand_total / total
    let cum := acc + share
    ⟨r.item_code, r.demand_total, share, cum, abcLabel cum⟩ :: abcScan total cum rs

/-- Embeds the ABC block of `build_product_level_forecast` (lines 374-393):
sort by demand_total descending, attach shares, cumulative shares and
classes; when the grand total is not positive every row gets share 0 and
class "C".  `sort_values` is modelled by a sort that is correct for the
documented ordering; the source does not pin the order of ties. -/
def abcClassify (summary : List ProductRow) : List AbcRow :=
  let total_all := (summary.map (·.demand_total)).sum
  if 0 < total_all then
    abcScan total_all 0 (List.insertionSort (fun a b => b.demand_total ≤ a.demand_total) summary)
  else summary.map (fun r => ⟨r.item_code, r.demand_total, 0, 0, "C"⟩)

end CoreDemand

namespace CoreInventory

/-- Embeds `core_inventory.normalize_item_code` (core_inventory.py lines
5-13): the simplified variant that only strips a trailing all-zero
fractional part.  `none` models a float `NaN` cell (`str` form "nan"). -/
def normalize_item_code (x : Option String) : String :=
  let s := pyStrip (pyStr x)
  if s = "" ∨ strLower s = "nan" then ""
  else
    let left := s.data.takeWhile (fun c => c ≠ '.')
    if left.length = s.data.length then pyStrip s
    else
      let right := s.data.drop (left.length + 1)
      if right.all (fun c => c = '0') then pyStrip ⟨left⟩ else pyStrip s

/-- Required forecast-input columns (lines 55-68). -/
def required_forecast_cols : List String :=
  ["item code", "months_count", "months_list", "demand_total", "demand_avg_all",
   "demand_avg_nonzero", "demand_std", "demand_cv", "last_month_demand",
   "forecast_next_month", "forecast_next_month_rounded", "forecast_method"]

/-- Required inventory-input columns (lines 70-77). -/
def required_inv_cols : List String :=
  ["item code", "iteam name", "on_hand_dc", "on_order_from_china",
   "lead_time_import_days", "safety_stock_days"]

/-- Outcome of the schema validation at the top of `plan_inventory_dc`. -/
inductive SchemaCheck where
  | missingForecast (cols : List String)
  | missingInventory (cols : List String)
  | ok
deriving DecidableEq

/-- The inventory header list after the `item name` alias rename
(lines 52-53): applied only when `iteam name` is absent and `item name`
is present. -/
def renameAlias (cols : List String) : List String :=
  if "iteam name" ∉ cols ∧ "item name" ∈ cols then
    cols.map (fun c => if c = "item name" then "iteam name" else c)
  else cols

/-- Embeds the column validation of `plan_inventory_dc` (lines 48-85):
headers are stripped, the inventory alias is applied, and a missing-column
error carrying the list of absent names is raised for the forecast input
first, then for the inventory input. -/
def schemaCheck (forecastCols invCols : List String) : SchemaCheck :=
  let f := forecastCols.map pyStrip
  let i := renameAlias (invCols.map pyStrip)
  let missing_f := required_forecast_cols.filter (fun c => c ∉ f)
  let missing_i := required_inv_cols.filter (fun c => c ∉ i)
  if missing_f ≠ [] then .missingForecast missing_f
  else if missing_i ≠ [] then .missingInventory missing_i
  else .ok

/-- The forecast-side fields of `plan_inventory_dc` that the join logic
uses: raw item code, coerced demand total (line 92) and forecast. -/
structure ForecastRow where
  item_code : String
  demand_total : ℚ
  forecast_next_month : ℚ
deriving DecidableEq

/-- An inventory snapshot row: raw item code and the stock fields. -/
structure InvRow where
  item_code : String
  on_hand_dc : ℚ
  on_order_from_china : ℚ
deriving DecidableEq

/-- Canonical join key of a forecast row (line 88). -/
def fkey (r : ForecastRow) : String := normalize_item_code (some r.item_code)

/-- Canonical join key of an inventory row (line 89). -/
def ikey (r : InvRow) : String := normalize_item_code (some r.item_code)

/-- Keeps the first row for each canonical key, in order, modelling
`drop_duplicates("item_code_key", keep="first")`. -/
def dropDupFirstAux (seen : List String) : List ForecastRow → List ForecastRow
  | [] => []
  | r :: rs =>
    if fkey r ∈ seen then dropDupFirstAux seen rs
    else r :: dropDupFirstAux (fkey r :: seen) rs

/-- Embeds line 93: sort by demand_total descending then drop duplicate
canonical keys keeping the first row.  `sort_values` is modelled by a
sort that is correct for the documented ordering; the source does not
pin the order of ties. -/
def dedup_forecast (fs : List ForecastRow) : List ForecastRow :=
  dropDupFirstAux [] (List.insertionSort (fun a b => b.demand_total ≤ a.demand_total) fs)

/-- Embeds the left merge of lines 99-104: one output record per
inventory row, paired with the unique forecast row of the same canonical
key when one exists. -/
def merge_left (inv : List InvRow) (fs : List ForecastRow) : List (InvRow × Option ForecastRow) :=
  let fs2 := dedup_forecast fs
  inv.map (fun i => (i, fs2.find? (fun f => fkey f == ikey i)))

/-- Embeds `_decide_action` (lines 191-206). -/
def decide_action (fd avail rop buffer_qty : ℚ) : String :=
  if fd ≤ 0 then "Hold"
  else if avail ≤ rop then "Order"
  else if avail ≤ rop + buffer_qty then "Review"
  else "Hold"

/-- Embeds `_calc_order_qty` (lines 214-228). -/
def calc_order_qty (decision : String) (fd avail target min_lt : ℚ) : ℤ :=
  if decision ≠ "Order" then 0
  else if fd ≤ 0 then 0
  else
    let raw_needed := max (target - avail) 0
    let order_qty := max raw_needed min_lt
    if 0 < order_qty then pyRound order_qty else 0

end CoreInventory

/-- The descending demand ordering used by the forecast dedup is total. -/
instance : IsTotal CoreInventory.ForecastRow
    (fun a b => b.demand_total ≤ a.demand_total) :=
  ⟨fun a b => le_total b.demand_total a.demand_total⟩

/-- The descending demand ordering used by the forecast dedup is transitive. -/
instance : IsTrans CoreInventory.ForecastRow
    (fun a b => b.demand_total ≤ a.demand_total) :=
  ⟨fun _ _ _ hab hbc => le_trans hbc hab⟩

/-- C6: the code normalizer maps null, empty and "nan" inputs to "",
returns "0.5" and "123456" as specified, but on the scientific-notation
input "6.97E+12" it returns "6.97E+12", not the claimed plain integer
string "6970000000000": `str(Decimal("6.97E+12").to_integral_value())`
keeps scientific notation because the exponent is positive. -/
theorem C6_normalize_item_code_scientific :
    CoreDemand.normalize_item_code (some "6.97E+12") = "6.97E+12" ∧
    "6.97E+12" ≠ "6970000000000" ∧
    CoreDemand.normalize_item_code (some "0.5") = "0.5" ∧
    CoreDemand.normalize_item_code (some "") = "" ∧
    CoreDemand.normalize_item_code (some " 123,456 ") = "123456" ∧
    CoreDemand.normalize_item_code none = "" ∧
    CoreDemand.normalize_item_code (some " NaN ") = "" := by
  refine ⟨?_, ?_, ?_, ?_, ?_, ?_, ?_⟩ <;> decide

/-- Two strings with different first characters are different. -/
theorem string_ne_of_head {s t : String} {c₁ c₂ : Char} {l₁ l₂ : List Char}
    (h₁ : s.data = c₁ :: l₁) (h₂ : t.data = c₂ :: l₂) (h : c₁ ≠ c₂) : s ≠ t := by
  intro he
  subst he
  rw [h₁] at h₂
  injection h₂ with hc _
  exact h hc

/-- Appending different strings to a common prefix gives different strings. -/
theorem append_right_ne (p : String) {x y : String} (h : x ≠ y) : p ++ x ≠ p ++ y := by
  intro he
  apply h
  apply String.ext
  have hd := congrArg String.data he
  rw [String.data_append, String.data_append] at hd
  exact List.append_cancel_left hd

/-- Half-to-even rounding of a nonnegative value is nonnegative. -/
theorem pyRound_nonneg {q : ℚ} (h : 0 ≤ q) : 0 ≤ pyRound q := by
  unfold pyRound ratFloor
  have hf : (0 : ℤ) ≤ q.num.fdiv (q.den : ℤ) :=
    Int.fdiv_nonneg (Rat.num_nonneg.mpr h) (Int.natCast_nonneg _)
  split_ifs <;> omega

/-- Half-to-even rounding is the identity on integer values. -/
theorem pyRound_intCast (n : ℤ) : pyRound ((n : ℤ) : ℚ) = n := by
  unfold pyRound ratFloor
  rw [Rat.num_intCast, Rat.den_intCast]
  norm_num [Int.fdiv_one]

/-- Half-to-even rounding of zero. -/
theorem pyRound_zero : pyRound 0 = 0 := by
  simpa using pyRound_intCast 0

/-- C2: the inventory decision is computed by the first matching rule, in
order: nonpositive daily forecast gives Hold (with order quantity 0
whatever the stock is); otherwise available stock at or below the reorder
point gives Order (in particular zero stock with positive forecast and
positive reorder point); otherwise available stock at or below reorder
point plus review buffer gives Review; otherwise Hold. -/
theorem C2_decision_rules (fd avail rop buffer_qty target min_lt : ℚ) :
    (fd ≤ 0 → CoreInventory.decide_action fd avail rop buffer_qty = "Hold" ∧
      CoreInventory.calc_order_qty (CoreInventory.decide_action fd avail rop buffer_qty)
        fd avail target min_lt = 0) ∧
    (0 < fd → avail ≤ rop →
      CoreInventory.decide_action fd avail rop buffer_qty = "Order") ∧
    (avail = 0 → 0 < fd → 0 < rop →
      CoreInventory.decide_action fd avail rop buffer_qty = "Order") ∧
    (0 < fd → rop < avail → avail ≤ rop + buffer_qty →
      CoreInventory.decide_action fd avail rop buffer_qty = "Review") ∧
    (0 < fd → rop < avail → rop + buffer_qty < avail →
      CoreInventory.decide_action fd avail rop buffer_qty = "Hold") := by
  refine ⟨?_, ?_, ?_, ?_, ?_⟩
  · intro h
    have hd : CoreInventory.decide_action fd avail rop buffer_qty = "Hold" := by
      unfold CoreInventory.decide_action
      rw [if_pos h]
    refine ⟨hd, ?_⟩
    rw [hd]
    unfold CoreInventory.calc_order_qty
    rw [if_pos (by decide : ("Hold" : String) ≠ "Order")]
  · intro h1 h2
    unfold CoreInventory.decide_action
    rw [if_neg (not_le.mpr h1), if_pos h2]
  · intro h0 h1 h2
    subst h0
    unfold CoreInventory.decide_action
    rw [if_neg (not_le.mpr h1), if_pos h2.le]
  · intro h1 h2 h3
    unfold CoreInventory.decide_action
    rw [if_neg (not_le.mpr h1), if_neg (not_le.mpr h2), if_pos h3]
  · intro h1 h2 h3
    unfold CoreInventory.decide_action
    rw [if_neg (not_le.mpr h1), if_neg (not_le.mpr h2), if_neg (not_le.mpr h3)]

/-- Witness for C2 at concrete inputs. -/
theorem C2_decision_rules_witness :
    CoreInventory.decide_action 1 0 5 2 = "Order" ∧
    CoreInventory.decide_action 0 100 5 2 = "Hold" ∧
    CoreInventory.calc_order_qty (CoreInventory.decide_action 0 100 5 2) 0 100 50 10 = 0 ∧
    CoreInventory.decide_action 1 9 5 2 = "Hold" ∧
    CoreInventory.decide_action 1 6 5 2 = "Review" := by
  refine ⟨?_, ?_, ?_, ?_, ?_⟩
  · exact (C2_decision_rules 1 0 5 2 0 0).2.2.1 rfl (by norm_num) (by norm_num)
  · exact ((C2_decision_rules 0 100 5 2 50 10).1 (by norm_num)).1
  · exact ((C2_decision_rules 0 100 5 2 50 10).1 (by norm_num)).2
  · exact (C2_decision_rules 1 9 5 2 0 0).2.2.2.2 (by norm_num) (by norm_num) (by norm_num)
  · exact (C2_decision_rules 1 6 5 2 0 0).2.2.2.1 (by norm_num) (by norm_num) (by norm_num)

/-- C3: the suggested order quantity is 0 whenever the decision is not
Order, equals the half-even rounding of max(target − available, 0,
min_order_qty_lt) when the decision is Order, and is never negative for
any input. -/
theorem C3_order_qty (fd avail rop buffer_qty target min_lt : ℚ) :
    (CoreInventory.decide_action fd avail rop buffer_qty ≠ "Order" →
      CoreInventory.calc_order_qty (CoreInventory.decide_action fd avail rop buffer_qty)
        fd avail target min_lt = 0) ∧
    (CoreInventory.decide_action fd avail rop buffer_qty = "Order" →
      CoreInventory.calc_order_qty (CoreInventory.decide_action fd avail rop buffer_qty)
        fd avail target min_lt = pyRound (max (max (target - avail) 0) min_lt)) ∧
    (∀ decision : String, 0 ≤ CoreInventory.calc_order_qty decision fd avail target min_lt) := by
  refine ⟨?_, ?_, ?_⟩
  · intro h
    unfold CoreInventory.calc_order_qty
    rw [if_pos h]
  · intro h
    have hfd : 0 < fd := by
      by_contra hc
      push_neg at hc
      unfold CoreInventory.decide_action at h
      rw [if_pos hc] at h
      exact absurd h (by decide)
    rw [h]
    unfold CoreInventory.calc_order_qty
    rw [if_neg (by simp : ¬("Order" : String) ≠ "Order"), if_neg (not_le.mpr hfd)]
    have hnn : 0 ≤ max (max (target - avail) 0) min_lt :=
      le_trans (le_max_right (target - avail) 0) (le_max_left _ _)
    by_cases hpos : 0 < max (max (target - avail) 0) min_lt
    · rw [if_pos hpos]
    · rw [if_neg hpos, le_antisymm (not_lt.mp hpos) hnn, pyRound_zero]
  · intro decision
    unfold CoreInventory.calc_order_qty
    dsimp only
    split_ifs with h1 h2 h3
    · exact le_refl 0
    · exact le_refl 0
    · exact pyRound_nonneg h3.le
    · exact le_refl 0

/-- Witness for C3 at concrete inputs. -/
theorem C3_order_qty_witness :
    CoreInventory.calc_order_qty (CoreInventory.decide_action 1 0 5 2) 1 0 7 0 = 7 ∧
    CoreInventory.calc_order_qty (CoreInventory.decide_action 1 100 5 2) 1 100 7 0 = 0 ∧
    (0 : ℤ) ≤ CoreInventory.calc_order_qty "Order" 1 100 7 0 := by
  have horder : CoreInventory.decide_action 1 0 5 2 = "Order" := by
    unfold CoreInventory.decide_action
    rw [if_neg (by norm_num), if_pos (by norm_num)]
  have hhold : CoreInventory.decide_action 1 100 5 2 = "Hold" := by
    unfold CoreInventory.decide_action
    rw [if_neg (by norm_num), if_neg (by norm_num), if_neg (by norm_num)]
  refine ⟨?_, ?_, ?_⟩
  · have h := (C3_order_qty 1 0 5 2 7 0).2.1 horder
    rw [h]
    have hmax : max (max ((7 : ℚ) - 0) 0) 0 = ((7 : ℤ) : ℚ) := by push_cast; norm_num
    rw [hmax, pyRound_intCast]
  · refine (C3_order_qty 1 100 5 2 7 0).1 ?_
    rw [hhold]
    decide
  · exact (C3_order_qty 1 100 5 2 7 0).2.2 "Order"

/-- C5: the rounded forecast equals max(round(forecast), 0) and is never
negative, for every demand series. -/
theorem C5_rounded_forecast (demand : List ℚ) :
    CoreDemand.forecast_next_month_rounded demand
      = max (pyRound (CoreDemand.compute_forecast demand).1) 0 ∧
    0 ≤ CoreDemand.forecast_next_month_rounded demand :=
  ⟨rfl, le_max_right _ _⟩

/-- C10: on a non-empty series the forecast method is never of the form
"mean_last_m": the windowed branch runs only when the series has at least
4 points, so the window has at least 4 points and the small-window
sub-branch is unreachable. -/
theorem C10_no_mean_last_method (demand : List ℚ) (_hne : demand ≠ []) (k : ℕ) :
    (CoreDemand.compute_forecast demand).2 ≠ "mean_last_" ++ toString k := by
  unfold CoreDemand.compute_forecast
  dsimp only
  split_ifs with h1 h2 h3 h4 h5
  · exact string_ne_of_head rfl rfl (by decide)
  · exact string_ne_of_head rfl rfl (by decide)
  · exfalso
    have hlen : (demand.drop (demand.length - min 9 demand.length)).length
        = min 9 demand.length := by
      rw [List.length_drop]
      exact Nat.sub_sub_self (Nat.min_le_right 9 demand.length)
    rw [hlen] at h4
    have h9 : 4 ≤ min 9 demand.length := le_min (by norm_num) h3
    omega
  · exact string_ne_of_head rfl rfl (by decide)
  · show ("mean_" ++ "all_few_months") ≠ "mean_" ++ ("last_" ++ toString k)
    exact append_right_ne "mean_" (string_ne_of_head rfl rfl (by decide))
  · show ("mean_" ++ "all_few_months") ≠ "mean_" ++ ("last_" ++ toString k)
    exact append_right_ne "mean_" (string_ne_of_head rfl rfl (by decide))

/-- Witness for C10 at a concrete series. -/
theorem C10_no_mean_last_method_witness :
    ([(1 : ℚ), 2, 3, 4] ≠ []) ∧
    (CoreDemand.compute_forecast [(1 : ℚ), 2, 3, 4]).2 ≠ "mean_last_" ++ toString 4 :=
  ⟨by decide, C10_no_mean_last_method [(1 : ℚ), 2, 3, 4] (by decide) 4⟩

/-- Elementwise product against a constant list sums to the scaled sum. -/
theorem sum_zipWith_mul_replicate (xs : List ℚ) (n : ℕ) (c : ℚ) (h : xs.length = n) :
    (List.zipWith (fun a b => a * b) xs (List.replicate n c)).sum = xs.sum * c := by
  subst h
  induction xs with
  | nil => simp
  | cons x xs ih =>
    rw [List.length_cons, List.replicate_succ, List.zipWith_cons_cons, List.sum_cons, ih,
      List.sum_cons]
    ring

/-- The weighted sum with unit weights on the first `no` points and weight
2 on the last 3 points splits into plain and doubled partial sums. -/
theorem sum_zipWith_weights (xs : List ℚ) (no : ℕ) (hno : no + 3 = xs.length) :
    (List.zipWith (fun a b => a * b) xs
        (List.replicate no (1 : ℚ) ++ List.replicate 3 (2 : ℚ))).sum
      = (xs.take no).sum + 2 * (xs.drop no).sum := by
  have htake : (xs.take no).length = no := by rw [List.length_take]; omega
  have hdrop : (xs.drop no).length = 3 := by rw [List.length_drop]; omega
  conv_lhs => rw [← List.take_append_drop no xs]
  rw [List.zipWith_append _ _ _ _ _ (by rw [htake, List.length_replicate]), List.sum_append,
    sum_zipWith_mul_replicate _ _ _ htake, sum_zipWith_mul_replicate _ _ _ hdrop]
  ring

/-- C4: the forecast engine applies exactly the documented precedence:
zero total gives (0, zero_demand); else a zero ratio of at least one half
with positive nonzero average gives that average with the intermittent
method; else with at least 4 points the window of the last min(9,n)
points is averaged with weight 1 on the oldest m−3 and weight 2 on the
newest 3 points; else the plain mean of all points.  The three concrete
example series of the specification evaluate accordingly. -/
theorem C4_forecast_precedence :
    (∀ demand : List ℚ, demand.sum = 0 →
      CoreDemand.compute_forecast demand = (0, "zero_demand")) ∧
    (∀ demand : List ℚ, demand.sum ≠ 0 → 1/2 ≤ CoreDemand.zero_ratio demand →
      0 < CoreDemand.demand_avg_nonzero demand →
      CoreDemand.compute_forecast demand
        = (CoreDemand.demand_avg_nonzero demand, "avg_nonzero_intermittent")) ∧
    (∀ demand : List ℚ, demand.sum ≠ 0 →
      ¬(1/2 ≤ CoreDemand.zero_ratio demand ∧ 0 < CoreDemand.demand_avg_nonzero demand) →
      4 ≤ demand.length →
      CoreDemand.compute_forecast demand
        = ((((demand.drop (demand.length - min 9 demand.length)).take
                (min 9 demand.length - 3)).sum
              + 2 * ((demand.drop (demand.length - min 9 demand.length)).drop
                (min 9 demand.length - 3)).sum)
             / (((min 9 demand.length : ℕ) : ℚ) + 3),
           "weighted_last_" ++ toString (min 9 demand.length) ++ "_old1_new2")) ∧
    (∀ demand : List ℚ, demand.sum ≠ 0 →
      ¬(1/2 ≤ CoreDemand.zero_ratio demand ∧ 0 < CoreDemand.demand_avg_nonzero demand) →
      demand.length < 4 → demand ≠ [] →
      CoreDemand.compute_forecast demand
        = (demand.sum / (demand.length : ℚ), "mean_all_few_months")) ∧
    CoreDemand.compute_forecast [0, 0, 0, 0, 0] = (0, "zero_demand") ∧
    CoreDemand.compute_forecast [0, 5, 0, 0, 0] = (5, "avg_nonzero_intermittent") ∧
    CoreDemand.compute_forecast [10, 20, 30] = (20, "mean_all_few_months") := by
  have h1 : ∀ demand : List ℚ, demand.sum = 0 →
      CoreDemand.compute_forecast demand = (0, "zero_demand") := by
    intro d h
    unfold CoreDemand.compute_forecast
    dsimp only
    rw [if_pos h]
  have h2 : ∀ demand : List ℚ, demand.sum ≠ 0 → 1/2 ≤ CoreDemand.zero_ratio demand →
      0 < CoreDemand.demand_avg_nonzero demand →
      CoreDemand.compute_forecast demand
        = (CoreDemand.demand_avg_nonzero demand, "avg_nonzero_intermittent") := by
    intro d hs hr ha
    unfold CoreDemand.compute_forecast
    dsimp only
    rw [if_neg hs, if_pos ⟨hr, ha⟩]
  have h3 : ∀ demand : List ℚ, demand.sum ≠ 0 →
      ¬(1/2 ≤ CoreDemand.zero_ratio demand ∧ 0 < CoreDemand.demand_avg_nonzero demand) →
      4 ≤ demand.length →
      CoreDemand.compute_forecast demand
        = ((((demand.drop (demand.length - min 9 demand.length)).take
                (min 9 demand.length - 3)).sum
              + 2 * ((demand.drop (demand.length - min 9 demand.length)).drop
                (min 9 demand.length - 3)).sum)
             / (((min 9 demand.length : ℕ) : ℚ) + 3),
           "weighted_last_" ++ toString (min 9 demand.length) ++ "_old1_new2") := by
    intro d hs hno h4
    unfold CoreDemand.compute_forecast
    dsimp only
    rw [if_neg hs, if_neg hno, if_pos h4]
    have hlen : (d.drop (d.length - min 9 d.length)).length = min 9 d.length := by
      rw [List.length_drop]
      exact Nat.sub_sub_self (Nat.min_le_right 9 d.length)
    have h9 : 4 ≤ min 9 d.length := le_min (by norm_num) h4
    rw [if_neg (by omega : ¬(d.drop (d.length - min 9 d.length)).length ≤ 3)]
    rw [hlen]
    have hm3 : min 3 (min 9 d.length) = 3 := Nat.min_eq_left (by omega)
    rw [hm3, Prod.mk.injEq]
    refine ⟨?_, rfl⟩
    rw [sum_zipWith_weights _ _ (by omega)]
    have hws : (List.replicate (min 9 d.length - 3) (1 : ℚ) ++ List.replicate 3 (2 : ℚ)).sum
        = ((min 9 d.length : ℕ) : ℚ) + 3 := by
      rw [List.sum_append, List.sum_replicate, List.sum_replicate, nsmul_eq_mul, nsmul_eq_mul,
        Nat.cast_sub (by omega : 3 ≤ min 9 d.length)]
      ring
    rw [hws]
  have h4 : ∀ demand : List ℚ, demand.sum ≠ 0 →
      ¬(1/2 ≤ CoreDemand.zero_ratio demand ∧ 0 < CoreDemand.demand_avg_nonzero demand) →
      demand.length < 4 → demand ≠ [] →
      CoreDemand.compute_forecast demand
        = (demand.sum / (demand.length : ℚ), "mean_all_few_months") := by
    intro d hs hno hlt hne
    unfold CoreDemand.compute_forecast
    dsimp only
    rw [if_neg hs, if_neg hno, if_neg (by omega : ¬4 ≤ d.length),
      if_neg (fun hh => hne (List.length_eq_zero.mp hh))]
  refine ⟨h1, h2, h3, h4, ?_, ?_, ?_⟩
  · exact h1 _ (by norm_num [List.sum_cons, List.sum_nil])
  · have hzc : CoreDemand.zeros_count [0, 5, 0, 0, 0] = 4 := by decide
    have hr : 1/2 ≤ CoreDemand.zero_ratio [0, 5, 0, 0, 0] := by
      unfold CoreDemand.zero_ratio
      rw [if_neg (by decide : ¬([(0:ℚ), 5, 0, 0, 0].length = 0)), hzc]
      norm_num [List.length_cons]
    have hfilter : List.filter (fun x => decide (0 < x)) [(0:ℚ), 5, 0, 0, 0] = [(5:ℚ)] := by
      decide
    have havg : CoreDemand.demand_avg_nonzero [0, 5, 0, 0, 0] = 5 := by
      unfold CoreDemand.demand_avg_nonzero
      rw [hfilter]
      norm_num [List.sum_cons, List.sum_nil, List.length_cons]
    have h := h2 [0, 5, 0, 0, 0] (by norm_num [List.sum_cons, List.sum_nil]) hr
      (by rw [havg]; norm_num)
    rw [h, havg]
  · have hno : ¬(1/2 ≤ CoreDemand.zero_ratio [10, 20, 30]
        ∧ 0 < CoreDemand.demand_avg_nonzero [10, 20, 30]) := by
      rintro ⟨hr, -⟩
      have hzc : CoreDemand.zeros_count [10, 20, 30] = 0 := by decide
      unfold CoreDemand.zero_ratio at hr
      rw [if_neg (by decide : ¬([(10:ℚ), 20, 30].length = 0)), hzc] at hr
      norm_num [List.length_cons] at hr
    have h := h4 [10, 20, 30] (by norm_num [List.sum_cons, List.sum_nil]) hno
      (by norm_num [List.length_cons]) (by decide)
    rw [h]
    norm_num [List.sum_cons, List.sum_nil, List.length_cons]

/-- Witness for C4 at a concrete four-point series going through the
weighted-window branch. -/
theorem C4_forecast_precedence_witness :
    CoreDemand.compute_forecast [(7 : ℚ), 7, 7, 7] = (7, "weighted_last_4_old1_new2") := by
  have hno : ¬(1/2 ≤ CoreDemand.zero_ratio [(7:ℚ), 7, 7, 7]
      ∧ 0 < CoreDemand.demand_avg_nonzero [(7:ℚ), 7, 7, 7]) := by
    rintro ⟨hr, -⟩
    have hzc : CoreDemand.zeros_count [(7:ℚ), 7, 7, 7] = 0 := by decide
    unfold CoreDemand.zero_ratio at hr
    rw [if_neg (by decide : ¬([(7:ℚ), 7, 7, 7].length = 0)), hzc] at hr
    norm_num [List.length_cons] at hr
  have h := C4_forecast_precedence.2.2.1 [(7:ℚ), 7, 7, 7]
    (by norm_num [List.sum_cons, List.sum_nil]) hno (by norm_num [List.length_cons])
  rw [h, Prod.mk.injEq]
  refine ⟨?_, by decide⟩
  norm_num [List.length_cons, List.take, List.drop, List.sum_cons, List.sum_nil]

/-- C1 counterexample: for the one-item table with positive total demand
the ABC block yields cumulative share 1 but class "C", not the claimed
"A", because 1 exceeds both thresholds of `_abc`. -/
theorem C1_single_item_abc_cex :
    ¬ ((CoreDemand.abcClassify [⟨"1", 5⟩]).map (fun r => r.abc_class) = ["A"]) ∧
    (CoreDemand.abcClassify [⟨"1", 5⟩]).map (fun r => r.abc_class) = ["C"] ∧
    (CoreDemand.abcClassify [⟨"1", 5⟩]).map (fun r => r.cum_demand_share) = [1] := by
  have hc : CoreDemand.abcClassify [⟨"1", 5⟩] = [⟨"1", 5, 1, 1, "C"⟩] := by
    unfold CoreDemand.abcClassify
    dsimp only
    rw [show ([(⟨"1", 5⟩ : CoreDemand.ProductRow)].map (fun r => r.demand_total)).sum = 5 by simp,
      if_pos (by norm_num : (0 : ℚ) < 5),
      show List.insertionSort
          (fun a b : CoreDemand.ProductRow => b.demand_total ≤ a.demand_total)
          [⟨"1", 5⟩] = [⟨"1", 5⟩] by simp [List.insertionSort, List.orderedInsert]]
    simp only [CoreDemand.abcScan, CoreDemand.abcLabel]
    rw [div_self (by norm_num : (5 : ℚ) ≠ 0), zero_add]
    norm_num
  rw [hc]
  refine ⟨by decide, by decide, by simp⟩

/-- C1 amended: a one-item ProductForecast table with positive
demand_total is classified with cumulative demand share 1 and class "C"
(the claim said class "A"; the code assigns "C" at cumulative share 1). -/
theorem C1_single_item_abc (code : String) (dt : ℚ) (h : 0 < dt) :
    CoreDemand.abcClassify [⟨code, dt⟩] = [⟨code, dt, 1, 1, "C"⟩] := by
  unfold CoreDemand.abcClassify
  dsimp only
  rw [show ([(⟨code, dt⟩ : CoreDemand.ProductRow)].map (fun r => r.demand_total)).sum = dt
      by simp,
    if_pos h,
    show List.insertionSort
        (fun a b : CoreDemand.ProductRow => b.demand_total ≤ a.demand_total)
        [⟨code, dt⟩] = [⟨code, dt⟩] by simp [List.insertionSort, List.orderedInsert]]
  simp only [CoreDemand.abcScan, CoreDemand.abcLabel]
  rw [div_self h.ne', zero_add]
  norm_num

/-- Witness for the amended C1 at a concrete row. -/
theorem C1_single_item_abc_witness :
    (0 : ℚ) < 8 ∧ CoreDemand.abcClassify [⟨"X", 8⟩] = [⟨"X", 8, 1, 1, "C"⟩] :=
  ⟨by norm_num, C1_single_item_abc "X" 8 (by norm_num)⟩

/-- C8: the planner reports a missing-column error carrying exactly the
list of absent required names if and only if a required column of the
forecast input or of the inventory input is absent after header trimming
and the item-name alias; with both schemas satisfied the check passes. -/
theorem C8_missing_columns (fCols iCols : List String) :
    (CoreInventory.schemaCheck fCols iCols = CoreInventory.SchemaCheck.ok ↔
      (∀ c ∈ CoreInventory.required_forecast_cols, c ∈ fCols.map pyStrip) ∧
      (∀ c ∈ CoreInventory.required_inv_cols,
        c ∈ CoreInventory.renameAlias (iCols.map pyStrip))) ∧
    (CoreInventory.required_forecast_cols.filter (fun c => c ∉ fCols.map pyStrip) ≠ [] →
      CoreInventory.schemaCheck fCols iCols = CoreInventory.SchemaCheck.missingForecast
        (CoreInventory.required_forecast_cols.filter (fun c => c ∉ fCols.map pyStrip))) ∧
    (CoreInventory.required_forecast_cols.filter (fun c => c ∉ fCols.map pyStrip) = [] →
      CoreInventory.required_inv_cols.filter
          (fun c => c ∉ CoreInventory.renameAlias (iCols.map pyStrip)) ≠ [] →
      CoreInventory.schemaCheck fCols iCols = CoreInventory.SchemaCheck.missingInventory
        (CoreInventory.required_inv_cols.filter
          (fun c => c ∉ CoreInventory.renameAlias (iCols.map pyStrip)))) := by
  unfold CoreInventory.schemaCheck
  dsimp only
  split_ifs with hf hi
  · refine ⟨?_, fun _ => rfl, fun h _ => absurd h hf⟩
    constructor
    · intro heq
      exact heq.elim
    · rintro ⟨hall, -⟩
      exact absurd (List.filter_eq_nil_iff.mpr (by simpa using hall)) hf
  · refine ⟨?_, fun h => absurd h hf, fun _ h => rfl⟩
    constructor
    · intro heq
      exact heq.elim
    · rintro ⟨-, hall⟩
      exact absurd (List.filter_eq_nil_iff.mpr (by simpa using hall)) hi
  · have hf' := not_ne_iff.mp hf
    have hi' := not_ne_iff.mp hi
    refine ⟨?_, fun h => absurd h hf, fun _ h => absurd h hi⟩
    constructor
    · intro _
      constructor
      · intro c hc
        have := List.filter_eq_nil_iff.mp hf' c hc
        simpa using this
      · intro c hc
        have := List.filter_eq_nil_iff.mp hi' c hc
        simpa using this
    · intro _
      rfl

/-- Witness for C8: the full schemas pass, an empty forecast header list
is reported with all required forecast columns missing. -/
theorem C8_missing_columns_witness :
    CoreInventory.schemaCheck CoreInventory.required_forecast_cols
      CoreInventory.required_inv_cols = CoreInventory.SchemaCheck.ok ∧
    CoreInventory.schemaCheck [] CoreInventory.required_inv_cols
      = CoreInventory.SchemaCheck.missingForecast CoreInventory.required_forecast_cols := by
  constructor
  · exact (C8_missing_columns CoreInventory.required_forecast_cols
      CoreInventory.required_inv_cols).1.mpr ⟨by decide, by decide⟩
  · have h := (C8_missing_columns [] CoreInventory.required_inv_cols).2.1 (by decide)
    exact h.trans (by decide)

/-- Rows surviving the keep-first dedup come from the input list. -/
theorem mem_of_mem_dropDupFirstAux {r : CoreInventory.ForecastRow} :
    ∀ {l : List CoreInventory.ForecastRow} {seen : List String},
      r ∈ CoreInventory.dropDupFirstAux seen l → r ∈ l := by
  intro l
  induction l with
  | nil => intro seen h; exact absurd h (List.not_mem_nil r)
  | cons x xs ih =>
    intro seen h
    unfold CoreInventory.dropDupFirstAux at h
    split_ifs at h with hx
    · exact List.mem_cons_of_mem x (ih h)
    · rcases List.mem_cons.mp h with heq | h'
      · rw [heq]; exact List.mem_cons_self x xs
      · exact List.mem_cons_of_mem x (ih h')

/-- A row kept by the dedup has a key outside the already-seen set. -/
theorem fkey_not_mem_seen {r : CoreInventory.ForecastRow} :
    ∀ {l : List CoreInventory.ForecastRow} {seen : List String},
      r ∈ CoreInventory.dropDupFirstAux seen l → CoreInventory.fkey r ∉ seen := by
  intro l
  induction l with
  | nil => intro seen h; exact absurd h (List.not_mem_nil r)
  | cons x xs ih =>
    intro seen h
    unfold CoreInventory.dropDupFirstAux at h
    split_ifs at h with hx
    · exact ih h
    · rcases List.mem_cons.mp h with heq | h'
      · rw [heq]; exact hx
      · exact fun hm => ih h' (List.mem_cons_of_mem _ hm)

/-- On a list sorted by descending demand, every row kept by the
keep-first dedup has maximal demand among the input rows of its key. -/
theorem dropDupFirstAux_max :
    ∀ {l : List CoreInventory.ForecastRow},
      List.Pairwise (fun a b : CoreInventory.ForecastRow =>
        b.demand_total ≤ a.demand_total) l →
      ∀ {seen : List String} {r : CoreInventory.ForecastRow},
        r ∈ CoreInventory.dropDupFirstAux seen l →
        ∀ x ∈ l, CoreInventory.fkey x = CoreInventory.fkey r →
          x.demand_total ≤ r.demand_total := by
  intro l
  induction l with
  | nil => intro _ seen r _ x hx; exact absurd hx (List.not_mem_nil x)
  | cons y ys ih =>
    intro hs seen r hr x hx hk
    have hpair := List.pairwise_cons.mp hs
    unfold CoreInventory.dropDupFirstAux at hr
    split_ifs at hr with hy
    · rcases List.mem_cons.mp hx with heq | hx'
      · refine absurd ?_ (fkey_not_mem_seen hr)
        rw [← hk, heq]
        exact hy
      · exact ih hpair.2 hr x hx' hk
    · rcases List.mem_cons.mp hr with heq | hr'
      · rcases List.mem_cons.mp hx with heq2 | hx'
        · rw [heq2, heq]
        · rw [heq]
          exact hpair.1 x hx'
      · have hne := fkey_not_mem_seen hr'
        rcases List.mem_cons.mp hx with heq2 | hx'
        · exfalso
          apply hne
          rw [← hk, heq2]
          exact List.mem_cons_self _ _
        · exact ih hpair.2 hr' x hx' hk

/-- Every key of the input list is either already seen or is the key of
some row kept by the dedup. -/
theorem dropDupFirstAux_covers {x : CoreInventory.ForecastRow} :
    ∀ {l : List CoreInventory.ForecastRow} {seen : List String}, x ∈ l →
      CoreInventory.fkey x ∈ seen ∨
        ∃ g ∈ CoreInventory.dropDupFirstAux seen l,
          CoreInventory.fkey g = CoreInventory.fkey x := by
  intro l
  induction l with
  | nil => intro seen h; exact absurd h (List.not_mem_nil x)
  | cons y ys ih =>
    intro seen hx
    unfold CoreInventory.dropDupFirstAux
    split_ifs with hy
    · rcases List.mem_cons.mp hx with heq | hx'
      · rw [heq]
        exact Or.inl hy
      · exact ih hx'
    · rcases List.mem_cons.mp hx with heq | hx'
      · exact Or.inr ⟨y, List.mem_cons_self _ _, by rw [heq]⟩
      · rcases @ih (CoreInventory.fkey y :: seen) hx' with hmem | ⟨g, hg, hgk⟩
        · rcases List.mem_cons.mp hmem with heq2 | hmem'
          · exact Or.inr ⟨y, List.mem_cons_self _ _, heq2.symm⟩
          · exact Or.inl hmem'
        · exact Or.inr ⟨g, List.mem_cons_of_mem _ hg, hgk⟩

/-- C9: the inventory plan join produces exactly one record per snapshot
row, in order; a matched forecast row belongs to the forecast input,
agrees on the canonical key, and carries the maximal demand_total among
input rows of that key (dedup before the left join); an unmatched record
means no forecast row has the snapshot key. -/
theorem C9_left_join (fs : List CoreInventory.ForecastRow)
    (inv : List CoreInventory.InvRow) :
    (CoreInventory.merge_left inv fs).length = inv.length ∧
    (CoreInventory.merge_left inv fs).map Prod.fst = inv ∧
    (∀ p ∈ CoreInventory.merge_left inv fs, ∀ f, p.2 = some f →
      f ∈ fs ∧ CoreInventory.fkey f = CoreInventory.ikey p.1 ∧
      ∀ g ∈ fs, CoreInventory.fkey g = CoreInventory.fkey f →
        g.demand_total ≤ f.demand_total) ∧
    (∀ p ∈ CoreInventory.merge_left inv fs, p.2 = none →
      ∀ f ∈ fs, CoreInventory.fkey f ≠ CoreInventory.ikey p.1) := by
  have hperm := List.perm_insertionSort
    (fun a b : CoreInventory.ForecastRow => b.demand_total ≤ a.demand_total) fs
  have hsorted := List.sorted_insertionSort
    (fun a b : CoreInventory.ForecastRow => b.demand_total ≤ a.demand_total) fs
  refine ⟨?_, ?_, ?_, ?_⟩
  · simp [CoreInventory.merge_left]
  · unfold CoreInventory.merge_left
    dsimp only
    rw [List.map_map]
    exact List.map_id inv
  · intro p hp f hf
    unfold CoreInventory.merge_left at hp
    dsimp only at hp
    obtain ⟨i, hi, rfl⟩ := List.mem_map.mp hp
    dsimp only at hf
    unfold CoreInventory.dedup_forecast at hf
    have hmem := List.mem_of_find?_eq_some hf
    have hpred := List.find?_some hf
    have hkey : CoreInventory.fkey f = CoreInventory.ikey i := beq_iff_eq.mp hpred
    have hfs : f ∈ fs := hperm.mem_iff.mp (mem_of_mem_dropDupFirstAux hmem)
    refine ⟨hfs, hkey, ?_⟩
    intro g hg hgk
    have hg2 : g ∈ List.insertionSort
        (fun a b : CoreInventory.ForecastRow => b.demand_total ≤ a.demand_total) fs :=
      hperm.mem_iff.mpr hg
    exact dropDupFirstAux_max hsorted hmem g hg2 hgk
  · intro p hp hf
    unfold CoreInventory.merge_left at hp
    dsimp only at hp
    obtain ⟨i, hi, rfl⟩ := List.mem_map.mp hp
    dsimp only at hf
    unfold CoreInventory.dedup_forecast at hf
    intro f hfs hkey
    have hf2 : f ∈ List.insertionSort
        (fun a b : CoreInventory.ForecastRow => b.demand_total ≤ a.demand_total) fs :=
      hperm.mem_iff.mpr hfs
    rcases @dropDupFirstAux_covers f _ [] hf2 with hmem | ⟨g, hg, hgk⟩
    · exact absurd hmem (List.not_mem_nil _)
    · apply List.find?_eq_none.mp hf g hg
      rw [hgk, hkey]
      exact beq_self_eq_true _

/-- Witness for C9: two forecast rows share the canonical key "1" and the
matched row is the one with the larger demand_total. -/
theorem C9_left_join_witness :
    (⟨"1", 9, 90⟩ : CoreInventory.ForecastRow)
        ∈ [(⟨"1.0", 3, 30⟩ : CoreInventory.ForecastRow), ⟨"1", 9, 90⟩] ∧
    CoreInventory.fkey ⟨"1", 9, 90⟩ = CoreInventory.ikey ⟨"1", 2, 3⟩ ∧
    (⟨"1.0", 3, 30⟩ : CoreInventory.ForecastRow).demand_total
      ≤ (⟨"1", 9, 90⟩ : CoreInventory.ForecastRow).demand_total := by
  have h := (C9_left_join [⟨"1.0", 3, 30⟩, ⟨"1", 9, 90⟩] [⟨"1", 2, 3⟩, ⟨"7", 0, 0⟩]).2.2.1
    (⟨"1", 2, 3⟩, some ⟨"1", 9, 90⟩) (by decide) ⟨"1", 9, 90⟩ rfl
  exact ⟨h.1, h.2.1, h.2.2 ⟨"1.0", 3, 30⟩ (by decide) (by decide)⟩

/-- String form of a present cell is the cell itself. -/
theorem pyStr_some (s : String) : pyStr (some s) = s := rfl

/-- The filter/map pipeline of the transformer, applied to the melted
records of one branch column, is the per-cell contribution map. -/
theorem cellRow_of_steps (ms : String) (hs : List String) (j : ℕ)
    (rows : List CoreDemand.SheetRow) :
    ((((((rows.map (fun r =>
            (⟨hs.getD j "", r.name, r.code, r.vals.getD j none⟩ : CoreDemand.MeltRow))).map
          CoreDemand.step_norm).filter CoreDemand.keep_code).map
          CoreDemand.step_name).filter CoreDemand.keep_name).filterMap
        CoreDemand.step_demand).map (CoreDemand.finalize ms)
      = rows.filterMap (CoreDemand.cellRow ms hs j) := by
  induction rows with
  | nil => rfl
  | cons r rs ih =>
    simp only [List.map_cons, List.filterMap_cons]
    by_cases hc : pyStrip (CoreDemand.normalize_item_code r.code) = ""
    · have hkc : CoreDemand.keep_code (CoreDemand.step_norm
          ⟨hs.getD j "", r.name, r.code, r.vals.getD j none⟩) = false := by
        simp [CoreDemand.keep_code, CoreDemand.step_norm, pyStr, hc]
      have hcr : CoreDemand.cellRow ms hs j r = none := by
        unfold CoreDemand.cellRow
        dsimp only
        rcases r.vals.getD j none with _ | d
        · rfl
        · dsimp only
          rw [if_neg]
          rintro ⟨h1, -⟩
          exact h1 hc
      rw [List.filter_cons, hkc, hcr]
      simp only [Bool.false_eq_true, if_false]
      exact ih
    · have hkc : CoreDemand.keep_code (CoreDemand.step_norm
          ⟨hs.getD j "", r.name, r.code, r.vals.getD j none⟩) = true := by
        simp [CoreDemand.keep_code, CoreDemand.step_norm, pyStr]
        exact hc
      rw [List.filter_cons, hkc]
      simp only [if_true, List.map_cons, List.filter_cons]
      by_cases hn : strContains (strLower (pyStrip (pyStr r.name))) "total" = true
      · have hkn : CoreDemand.keep_name (CoreDemand.step_name (CoreDemand.step_norm
            ⟨hs.getD j "", r.name, r.code, r.vals.getD j none⟩)) = false := by
          simp [CoreDemand.keep_name, CoreDemand.step_name, CoreDemand.step_norm, pyStr_some, hn]
        have hcr : CoreDemand.cellRow ms hs j r = none := by
          unfold CoreDemand.cellRow
          dsimp only
          rcases r.vals.getD j none with _ | d
          · rfl
          · dsimp only
            rw [if_neg]
            rintro ⟨-, h2⟩
            rw [hn] at h2
            exact Bool.true_eq_false.mp h2
        rw [hkn, hcr]
        simp only [Bool.false_eq_true, if_false]
        exact ih
      · have hn' : strContains (strLower (pyStrip (pyStr r.name))) "total" = false :=
          Bool.not_eq_true _ ▸ eq_false_of_ne_true hn
        have hkn : CoreDemand.keep_name (CoreDemand.step_name (CoreDemand.step_norm
            ⟨hs.getD j "", r.name, r.code, r.vals.getD j none⟩)) = true := by
          simp [CoreDemand.keep_name, CoreDemand.step_name, CoreDemand.step_norm, pyStr_some, hn']
        rw [hkn]
        simp only [if_true, List.filterMap_cons]
        rcases hv : r.vals.getD j none with _ | d
        · have hsd : CoreDemand.step_demand (CoreDemand.step_name (CoreDemand.step_norm
              ⟨hs.getD j "", r.name, r.code, none⟩)) = none := rfl
          have hcr : CoreDemand.cellRow ms hs j r = none := by
            unfold CoreDemand.cellRow
            dsimp only
            rw [hv]
          rw [hsd, hcr]
          exact ih
        · have hsd : CoreDemand.step_demand (CoreDemand.step_name (CoreDemand.step_norm
              ⟨hs.getD j "", r.name, r.code, some d⟩))
              = some (⟨hs.getD j "", some (pyStrip (pyStr r.name)),
                  some (CoreDemand.normalize_item_code r.code), some d⟩, d) := rfl
          have hcr : CoreDemand.cellRow ms hs j r
              = some ⟨ms, hs.getD j "", CoreDemand.normalize_item_code r.code,
                  pyStrip (pyStr r.name), d⟩ := by
            unfold CoreDemand.cellRow
            dsimp only
            rw [hv]
            dsimp only
            rw [if_pos ⟨hc, hn'⟩]
          rw [hsd, hcr]
          simp only [List.map_cons]
          rw [ih]
          rfl


/-- A produced cell contribution determines the output fields and the
filter conditions that let it through. -/
theorem cellRow_eq_some {ms : String} {hs : List String} {j : ℕ}
    {row : CoreDemand.SheetRow} {r : CoreDemand.LongRow}
    (h : CoreDemand.cellRow ms hs j row = some r) :
    r.month = ms ∧ r.branch = hs.getD j "" ∧
    r.item_code = CoreDemand.normalize_item_code row.code ∧
    r.iteam_name = pyStrip (pyStr row.name) ∧
    pyStrip (CoreDemand.normalize_item_code row.code) ≠ "" ∧
    strContains (strLower (pyStrip (pyStr row.name))) "total" = false := by
  unfold CoreDemand.cellRow at h
  dsimp only at h
  rcases hv : row.vals.getD j none with _ | d
  · rw [hv] at h
    exact absurd h (by simp)
  · rw [hv] at h
    dsimp only at h
    split_ifs at h with hcond
    injection h with h2
    subst h2
    exact ⟨rfl, rfl, rfl, rfl, hcond.1, hcond.2⟩

/-- C7: the wide-to-long transformer is the per-cell contribution map
over the branch columns; no output row comes from a column whose header
contains "total"; no output row has an item name containing "total"; a
blank demand cell contributes no row; a numeric-0 demand cell on a row
that survives the code and name filters contributes exactly one row,
with demand 0. -/
theorem C7_wide_to_long (df : CoreDemand.Sheet) (month_label : String) :
    (CoreDemand.build_long_from_wide_month df month_label
      = ((List.range (df.headers.map pyStrip).length).filter
            (fun j => CoreDemand.isBranchHeader ((df.headers.map pyStrip).getD j ""))).flatMap
          (fun j => (CoreDemand.swap_if_mixed df.rows).filterMap
            (CoreDemand.cellRow (CoreDemand.standardize_month_label month_label)
              (df.headers.map pyStrip) j))) ∧
    (∀ r ∈ CoreDemand.build_long_from_wide_month df month_label,
      CoreDemand.is_total_col r.branch = false) ∧
    (∀ r ∈ CoreDemand.build_long_from_wide_month df month_label,
      strContains (strLower r.iteam_name) "total" = false) ∧
    (∀ (j : ℕ) (row : CoreDemand.SheetRow), row.vals.getD j none = none →
      CoreDemand.cellRow (CoreDemand.standardize_month_label month_label)
        (df.headers.map pyStrip) j row = none) ∧
    (∀ (j : ℕ) (row : CoreDemand.SheetRow), row.vals.getD j none = some 0 →
      pyStrip (CoreDemand.normalize_item_code row.code) ≠ "" →
      strContains (strLower (pyStrip (pyStr row.name))) "total" = false →
      CoreDemand.cellRow (CoreDemand.standardize_month_label month_label)
        (df.headers.map pyStrip) j row
        = some ⟨CoreDemand.standardize_month_label month_label,
                (df.headers.map pyStrip).getD j "",
                CoreDemand.normalize_item_code row.code,
                pyStrip (pyStr row.name), 0⟩) := by
  have hchar : CoreDemand.build_long_from_wide_month df month_label
      = ((List.range (df.headers.map pyStrip).length).filter
            (fun j => CoreDemand.isBranchHeader ((df.headers.map pyStrip).getD j ""))).flatMap
          (fun j => (CoreDemand.swap_if_mixed df.rows).filterMap
            (CoreDemand.cellRow (CoreDemand.standardize_month_label month_label)
              (df.headers.map pyStrip) j)) := by
    unfold CoreDemand.build_long_from_wide_month CoreDemand.meltSheet
    dsimp only
    rw [List.map_flatMap, List.filter_flatMap, List.map_flatMap, List.filter_flatMap,
      List.filterMap_flatMap, List.map_flatMap]
    simp only [cellRow_of_steps]
  refine ⟨hchar, ?_, ?_, ?_, ?_⟩
  · intro r hr
    rw [hchar] at hr
    obtain ⟨j, hj, hr2⟩ := List.mem_flatMap.mp hr
    obtain ⟨row, hrow, hcell⟩ := List.mem_filterMap.mp hr2
    have hbr := (cellRow_eq_some hcell).2.1
    have hhead := (List.mem_filter.mp hj).2
    unfold CoreDemand.isBranchHeader at hhead
    rw [Bool.and_eq_true, Bool.and_eq_true] at hhead
    rw [hbr]
    simpa using hhead.2
  · intro r hr
    rw [hchar] at hr
    obtain ⟨j, hj, hr2⟩ := List.mem_flatMap.mp hr
    obtain ⟨row, hrow, hcell⟩ := List.mem_filterMap.mp hr2
    have hc := cellRow_eq_some hcell
    rw [hc.2.2.2.1]
    exact hc.2.2.2.2.2
  · intro j row hv
    unfold CoreDemand.cellRow
    dsimp only
    rw [hv]
  · intro j row hv hcode hname
    unfold CoreDemand.cellRow
    dsimp only
    rw [hv]
    dsimp only
    rw [if_pos ⟨hcode, hname⟩]

/-- Witness for C7 on a concrete sheet with a Grand Total column, a Total
row, a blank demand cell and a numeric-0 demand cell. -/
theorem C7_wide_to_long_witness :
    CoreDemand.cellRow (CoreDemand.standardize_month_label "2025-01")
        (["Branch1", "Grand Total"].map pyStrip) 0
        ⟨some "Item C", some "300", [some 0, some 1]⟩
      = some ⟨"2025-01", "Branch1", "300", "Item C", 0⟩ ∧
    CoreDemand.cellRow (CoreDemand.standardize_month_label "2025-01")
        (["Branch1", "Grand Total"].map pyStrip) 0
        ⟨some "Item B", some "200", [none, some 3]⟩ = none ∧
    (CoreDemand.build_long_from_wide_month
        ⟨["Branch1", "Grand Total"],
         [⟨some "Item A", some "100", [some 17, some 999]⟩,
          ⟨some "Total", some "0", [some 5, some 5]⟩,
          ⟨some "Item B", some "200", [none, some 3]⟩,
          ⟨some "Item C", some "300", [some 0, some 1]⟩]⟩ "2025-01").length = 2 := by
  have hsheet := C7_wide_to_long
    ⟨["Branch1", "Grand Total"],
     [⟨some "Item A", some "100", [some 17, some 999]⟩,
      ⟨some "Total", some "0", [some 5, some 5]⟩,
      ⟨some "Item B", some "200", [none, some 3]⟩,
      ⟨some "Item C", some "300", [some 0, some 1]⟩]⟩ "2025-01"
  refine ⟨?_, ?_, ?_⟩
  · have h := hsheet.2.2.2.2 0 ⟨some "Item C", some "300", [some 0, some 1]⟩
      (by decide) (by decide) (by decide)
    exact h.trans (by decide)
  · exact hsheet.2.2.2.1 0 ⟨some "Item B", some "200", [none, some 3]⟩ (by decide)
  · rw [hsheet.1]
    decide
